import Mathlib

/-!
Shallow embedding of `src/assistant_bot.py` (an in-memory contact manager)
together with proofs checking the natural-language specification against it.

Modelling conventions:
* Python `datetime.date` values become the `Date` structure below (fields in
  the order year, month, day); the Gregorian day-count arithmetic
  (`toordinal`, `weekday`, `timedelta` addition, `date.replace`) is embedded
  following CPython's own table-based implementation in `datetime.py`
  (`_DAYS_IN_MONTH`, `_DAYS_BEFORE_MONTH`, `_days_before_year`, `_ymd2ord`).
* Python strings become Lean `String`; a character class `\d` in the source's
  regular expressions is embedded as the ASCII digits `0`-`9` (the reading the
  specification itself gives for the phone pattern).
* Mutating methods that can raise become functions returning
  `Record × Option Err`: the first component is the record state after the
  call (Python raises before any mutation in every operation modelled here,
  so the failing cases return the record unchanged), the second the raised
  error, `none` on success.  The error kinds mirror the distinct `ValueError`
  messages of the source.
* `AddressBook.get_upcoming_birthdays` iterates over `self.data.values()`;
  a Python `dict` iterates in insertion order, so the book is embedded as the
  `List Record` of its values.  Unhandled exceptions escaping that method are
  modelled by `Except String`, carrying the `ValueError` message.
-/

/-- A calendar date, as CPython's `datetime.date`: year, month, day. -/
structure Date where
  year : Nat
  month : Nat
  day : Nat
deriving DecidableEq, Repr

/-- Gregorian leap-year test, as CPython `datetime._is_leap`. -/
def isLeap (y : Nat) : Bool :=
  (y % 4 == 0 && y % 100 != 0) || (y % 400 == 0)

/-- CPython `datetime._DAYS_IN_MONTH` (non-leap month lengths); 0 outside 1..12. -/
def daysInMonthTable : Nat → Nat
  | 1 => 31 | 2 => 28 | 3 => 31 | 4 => 30 | 5 => 31 | 6 => 30
  | 7 => 31 | 8 => 31 | 9 => 30 | 10 => 31 | 11 => 30 | 12 => 31
  | _ => 0

/-- CPython `datetime._days_in_month`. -/
def daysInMonth (y m : Nat) : Nat :=
  daysInMonthTable m + (if m = 2 ∧ isLeap y then 1 else 0)

/-- CPython `datetime._DAYS_BEFORE_MONTH`; 0 outside 1..12. -/
def daysBeforeMonthTable : Nat → Nat
  | 1 => 0 | 2 => 31 | 3 => 59 | 4 => 90 | 5 => 120 | 6 => 151
  | 7 => 181 | 8 => 212 | 9 => 243 | 10 => 273 | 11 => 304 | 12 => 334
  | _ => 0

/-- CPython `datetime._days_before_month`. -/
def daysBeforeMonth (y m : Nat) : Nat :=
  daysBeforeMonthTable m + (if 2 < m ∧ isLeap y then 1 else 0)

/-- CPython `datetime._days_before_year`: days before January 1st of year `y`. -/
def daysBeforeYear (y : Nat) : Int :=
  365 * ((y - 1 : Nat) : Int) + (((y - 1) / 4 : Nat) : Int)
    - (((y - 1) / 100 : Nat) : Int) + (((y - 1) / 400 : Nat) : Int)

/-- CPython `datetime._ymd2ord` / `date.toordinal`: day 1 is 0001-01-01. -/
def toOrdinal (d : Date) : Int :=
  daysBeforeYear d.year + (daysBeforeMonth d.year d.month : Int) + (d.day : Int)

/-- Difference of two dates in days: `(a - b).days` on Python dates. -/
def dateSub (a b : Date) : Int :=
  toOrdinal a - toOrdinal b

/-- Python `date.weekday()`: Monday = 0 .. Sunday = 6. -/
def weekday (d : Date) : Nat :=
  ((toOrdinal d + 6) % 7).toNat

/-- The well-formedness invariant CPython enforces on every constructed date
(the 9999 upper bound on years is checked separately where Python checks it,
so that day-successor stays total). -/
def isValidDate (d : Date) : Prop :=
  1 ≤ d.year ∧ 1 ≤ d.month ∧ d.month ≤ 12 ∧ 1 ≤ d.day ∧ d.day ≤ daysInMonth d.year d.month

instance (d : Date) : Decidable (isValidDate d) := by
  unfold isValidDate; infer_instance

/-- Successor day in the Gregorian calendar (`date + timedelta(days=1)`). -/
def nextDay (d : Date) : Date :=
  if d.day < daysInMonth d.year d.month then ⟨d.year, d.month, d.day + 1⟩
  else if d.month < 12 then ⟨d.year, d.month + 1, 1⟩
  else ⟨d.year + 1, 1, 1⟩

/-- Python `date + timedelta(days=k)` for a non-negative `k`. -/
def addDays : Nat → Date → Date
  | 0, d => d
  | k + 1, d => addDays k (nextDay d)

/-- Python `date.replace(year=y)`: re-runs `_check_date_fields` on the new
field combination and raises `ValueError` (here: `Except.error` with the
CPython message) when it fails. -/
def replaceYear (d : Date) (y : Nat) : Except String Date :=
  if y < 1 ∨ 9999 < y then Except.error "year is out of range"
  else if d.month < 1 ∨ 12 < d.month then Except.error "month must be in 1..12"
  else if d.day < 1 ∨ daysInMonth y d.month < d.day then
    Except.error "day is out of range for month"
  else Except.ok ⟨y, d.month, d.day⟩

/-- ASCII decimal digit test; embeds the character class matched by the
source's regular expressions (`\d` in `re.fullmatch(r"\d{10}", ...)` and in
the pattern `strptime` compiles for `%d.%m.%Y`).  CPython's `\d` on `str`
additionally matches non-ASCII Unicode decimal digits; the embedding covers
the ASCII digits `0`-`9`, which is also how the specification reads the
pattern. -/
def isDigitChar (c : Char) : Bool :=
  48 ≤ c.toNat && c.toNat ≤ 57

/-- The validation of `Phone._validate`: `re.fullmatch(r"\d{10}", s)`. -/
def isValidPhone (s : String) : Bool :=
  s.data.length == 10 && s.data.all isDigitChar

/-- Error kinds of the source, one per distinct `ValueError` message raised
by the core classes (`Phone`, `Birthday`, `Record`). -/
inductive Err where
  | invalidPhoneFormat : Err
  | invalidDateFormat : Err
  | duplicatePhone : String → Err
  | phoneNotFound : String → Err
deriving DecidableEq, Repr

/-- Constructor `Phone(value)`: validates and holds the digit string. -/
def phoneMake (s : String) : Except Err String :=
  if isValidPhone s then Except.ok s else Except.error Err.invalidPhoneFormat

/-- Split a character list at every `'.'` (the literal separators of the
`%d.%m.%Y` pattern; the numeric fields of that pattern never contain a dot,
so the compiled regular expression matches exactly when this split yields
three matching fields). -/
def splitOnDot : List Char → List (List Char)
  | [] => [[]]
  | c :: rest =>
    if c == '.' then [] :: splitOnDot rest
    else
      match splitOnDot rest with
      | [] => [[c]]
      | f :: fs => (c :: f) :: fs

/-- Numeric value of a digit field (`int` applied to the matched group). -/
def fieldToNat (cs : List Char) : Nat :=
  cs.foldl (fun a c => 10 * a + (c.toNat - 48)) 0

/-- Day field of `strptime`'s `%d`: the regex `3[01]|[12]\d|0[1-9]|[1-9]`,
i.e. one or two digits with value 1..31 (leading zero optional). -/
def dayFieldOk (cs : List Char) : Bool :=
  cs.all isDigitChar && (cs.length == 1 || cs.length == 2)
    && 1 ≤ fieldToNat cs && fieldToNat cs ≤ 31

/-- Month field of `strptime`'s `%m`: the regex `1[0-2]|0[1-9]|[1-9]`,
i.e. one or two digits with value 1..12 (leading zero optional). -/
def monthFieldOk (cs : List Char) : Bool :=
  cs.all isDigitChar && (cs.length == 1 || cs.length == 2)
    && 1 ≤ fieldToNat cs && fieldToNat cs ≤ 12

/-- Year field of `strptime`'s `%Y`: the regex `\d\d\d\d`, exactly 4 digits. -/
def yearFieldOk (cs : List Char) : Bool :=
  cs.all isDigitChar && cs.length == 4

/-- Parsing of `Birthday.__init__`:
`datetime.strptime(value, "%d.%m.%Y").date()`.  `strptime` matches the
compiled field regexes against the whole string, then constructs
`date(year, month, day)`, whose field check can still fail (e.g. `31.02.2020`
or year `0000`); any failure surfaces as the single `Invalid date format`
error in the source, so the embedding returns `none` for all of them. -/
def parseBirthday (s : String) : Option Date :=
  match splitOnDot s.data with
  | [df, mf, yf] =>
    if dayFieldOk df && monthFieldOk mf && yearFieldOk yf then
      let dd := fieldToNat df
      let mm := fieldToNat mf
      let yy := fieldToNat yf
      if 1 ≤ yy ∧ dd ≤ daysInMonth yy mm then some ⟨yy, mm, dd⟩ else none
    else none
  | _ => none

/-- The character rendering a single decimal digit. -/
def digitChar (n : Nat) : Char :=
  Char.ofNat (48 + n)

/-- Two-digit zero-padded rendering (for values below 100). -/
def pad2 (n : Nat) : List Char :=
  [digitChar (n / 10), digitChar (n % 10)]

/-- Four-digit zero-padded rendering (for values below 10000). -/
def pad4 (n : Nat) : List Char :=
  [digitChar (n / 1000), digitChar (n / 100 % 10), digitChar (n / 10 % 10), digitChar (n % 10)]

/-- Rendering of `Birthday.__str__`: `strftime("%d.%m.%Y")` with zero-padded
fields (`%d`, `%m`, `%Y` are documented by CPython as zero-padded: `01`,
`02`, ..., `0001`, `0002`, ...). -/
def formatDate (d : Date) : String :=
  String.mk (pad2 d.day ++ '.' :: (pad2 d.month ++ '.' :: pad4 d.year))

/-- Shape of a strict `DD.MM.YYYY` string: two digit characters, a dot, two
digit characters, a dot, four digit characters. -/
def isStrictDDMMYYYY (s : String) : Bool :=
  match s.data with
  | [d1, d2, s1, m1, m2, s2, y1, y2, y3, y4] =>
    s1 == '.' && s2 == '.' && [d1, d2, m1, m2, y1, y2, y3, y4].all isDigitChar
  | _ => false

/-- A contact record of class `Record`: name, phone digit strings (the
`value`s of the owned `Phone` objects, in list order), optional birthday. -/
structure Record where
  name : String
  phones : List String
  birthday : Option Date
deriving DecidableEq, Repr

/-- Constructor `Record(name)`. -/
def recordMake (name : String) : Record :=
  ⟨name, [], none⟩

/-- Index of the first list entry equal to `p`; embeds the source's
"first `Phone` object whose `value` equals the argument" lookups. -/
def firstIdx (p : String) : List String → Option Nat
  | [] => none
  | q :: rest => if q == p then some 0 else (firstIdx p rest).map (· + 1)

/-- Method `Record.find_phone`. -/
def find_phone (r : Record) (p : String) : Option String :=
  r.phones.find? (fun q => q == p)

/-- Method `Record.add_phone`: duplicate check first (against the existing
`value`s), then `Phone` validation, then append. -/
def add_phone (r : Record) (p : String) : Record × Option Err :=
  if r.phones.any (fun q => q == p) then (r, some (Err.duplicatePhone p))
  else if isValidPhone p then ({ r with phones := r.phones ++ [p] }, none)
  else (r, some Err.invalidPhoneFormat)

/-- Method `Record.edit_phone`: find the first `Phone` with the old value
(else raise), then `set_phone` validates the new value and overwrites that
object in place, which keeps its position in the list. -/
def edit_phone (r : Record) (o n : String) : Record × Option Err :=
  match firstIdx o r.phones with
  | none => (r, some (Err.phoneNotFound o))
  | some i =>
    if isValidPhone n then ({ r with phones := r.phones.set i n }, none)
    else (r, some Err.invalidPhoneFormat)

/-- Method `Record.remove_phone`: find the first `Phone` with the value
(else raise), then `list.remove` drops that object. -/
def remove_phone (r : Record) (p : String) : Record × Option Err :=
  match firstIdx p r.phones with
  | none => (r, some (Err.phoneNotFound p))
  | some i => ({ r with phones := r.phones.eraseIdx i }, none)

/-- Method `Record.add_birthday`: `Birthday(birthday)` then overwrite the
slot; a parse failure raises before the assignment. -/
def add_birthday (r : Record) (s : String) : Record × Option Err :=
  match parseBirthday s with
  | none => (r, some Err.invalidDateFormat)
  | some d => ({ r with birthday := some d }, none)

/-- Lines 133-138 of `get_upcoming_birthdays`: this year's occurrence of a
birthday, recomputed with next year when it already passed, together with its
`delta_days`; either `date.replace` can raise. -/
def nextOccurrence (today b : Date) : Except String (Date × Int) :=
  match replaceYear b today.year with
  | Except.error e => Except.error e
  | Except.ok b1 =>
    if dateSub b1 today < 0 then
      match replaceYear b1 (today.year + 1) with
      | Except.error e => Except.error e
      | Except.ok b2 => Except.ok (b2, dateSub b2 today)
    else Except.ok (b1, dateSub b1 today)

/-- The loop body of `get_upcoming_birthdays` for a single record: `none`
when the record contributes nothing, otherwise the (weekend-shifted) weekday
index paired with the record's name. -/
def processRecord (today : Date) (r : Record) : Except String (Option (Nat × String)) :=
  match r.birthday with
  | none => Except.ok none
  | some b =>
    match nextOccurrence today b with
    | Except.error e => Except.error e
    | Except.ok (occ, delta) =>
      if 0 ≤ delta ∧ delta ≤ 7 then
        let wd := weekday occ
        let occ2 := if 5 ≤ wd then addDays (7 - wd) occ else occ
        Except.ok (some (weekday occ2, r.name))
      else Except.ok none

/-- The whole record loop: the (weekday, name) contributions in book order,
stopping at the first raised error as the Python loop does. -/
def collectPairs (today : Date) : List Record → Except String (List (Nat × String))
  | [] => Except.ok []
  | r :: rs =>
    match processRecord today r with
    | Except.error e => Except.error e
    | Except.ok none => collectPairs today rs
    | Except.ok (some p) =>
      match collectPairs today rs with
      | Except.error e => Except.error e
      | Except.ok ps => Except.ok (p :: ps)

/-- Entry `k` of `calendar.day_name`. -/
def dayName : Nat → String
  | 0 => "Monday" | 1 => "Tuesday" | 2 => "Wednesday" | 3 => "Thursday"
  | 4 => "Friday" | 5 => "Saturday" | _ => "Sunday"

/-- The names grouped under weekday index `i`, in contribution order (the
order `upcoming_birthdays.setdefault(day_name, []).append(...)` builds). -/
def namesForDay (pairs : List (Nat × String)) (i : Nat) : List String :=
  pairs.filterMap (fun q => if q.1 = i then some q.2 else none)

/-- Python `sorted` on the name list (lexicographic string order). -/
def sortNames (l : List String) : List String :=
  List.insertionSort (· ≤ ·) l

/-- The output line for weekday index `i`, if its group is non-empty:
`f"{day}: {', '.join(sorted(names))}"`. -/
def groupLine (pairs : List (Nat × String)) (i : Nat) : Option String :=
  if namesForDay pairs i = [] then none
  else some (dayName i ++ ": " ++ String.intercalate ", " (sortNames (namesForDay pairs i)))

/-- The output lines, iterating `calendar.day_name` in fixed Monday..Sunday
order and skipping days absent from the groups. -/
def groupLines (pairs : List (Nat × String)) : List String :=
  (List.range 7).filterMap (groupLine pairs)

/-- The weekday indices that actually get a line emitted. -/
def emittedDays (pairs : List (Nat × String)) : List Nat :=
  (List.range 7).filter (fun i => !(namesForDay pairs i).isEmpty)

/-- Method `AddressBook.get_upcoming_birthdays`, over the book's records in
insertion order, with `today` injected. -/
def get_upcoming_birthdays (book : List Record) (today : Date) : Except String String :=
  match collectPairs today book with
  | Except.error e => Except.error e
  | Except.ok [] => Except.ok "No upcoming birthdays next week."
  | Except.ok pairs => Except.ok (String.intercalate "\n" (groupLines pairs))

/-- Modelled from the spec: the `delta_days` selection described by the
upcoming-birthday claim, word for word: replace the birthday's year with
today's year; when that occurrence already passed (negative delta), recompute
with `today.year + 1`; yield the resulting `delta_days` (and nothing when a
year replacement fails).  Stated separately from `nextOccurrence` so that the
code can be proved to refine this description. -/
def specDeltaDays (today b : Date) : Option Int :=
  match replaceYear b today.year with
  | Except.error _ => none
  | Except.ok occ1 =>
    if dateSub occ1 today < 0 then
      match replaceYear occ1 (today.year + 1) with
      | Except.error _ => none
      | Except.ok occ2 => some (dateSub occ2 today)
    else some (dateSub occ1 today)

theorem isLeap_iff (y : Nat) :
    isLeap y = true ↔ (y % 4 = 0 ∧ y % 100 ≠ 0) ∨ y % 400 = 0 := by
  simp [isLeap]

theorem one_le_daysInMonthTable {m : Nat} (h1 : 1 ≤ m) (h2 : m ≤ 12) :
    1 ≤ daysInMonthTable m := by
  interval_cases m <;> simp [daysInMonthTable]

theorem one_le_daysInMonth (y : Nat) {m : Nat} (h1 : 1 ≤ m) (h2 : m ≤ 12) :
    1 ≤ daysInMonth y m := by
  have ht := one_le_daysInMonthTable h1 h2
  unfold daysInMonth
  split_ifs <;> omega

theorem daysBeforeMonth_step (y : Nat) {m : Nat} (h1 : 1 ≤ m) (h2 : m ≤ 11) :
    daysBeforeMonth y (m + 1) = daysBeforeMonth y m + daysInMonth y m := by
  unfold daysBeforeMonth daysInMonth
  cases h : isLeap y <;> interval_cases m <;>
    simp [h, daysBeforeMonthTable, daysInMonthTable]

theorem daysBeforeYear_succ (y : Nat) (hy : 1 ≤ y) :
    daysBeforeYear (y + 1) = daysBeforeYear y + 365 + (if isLeap y then 1 else 0) := by
  obtain ⟨n, rfl⟩ : ∃ n, y = n + 1 := ⟨y - 1, by omega⟩
  unfold daysBeforeYear
  simp only [Nat.add_sub_cancel]
  rw [Nat.succ_div n 4, Nat.succ_div n 100, Nat.succ_div n 400]
  have hiff := isLeap_iff (n + 1)
  cases hl : isLeap (n + 1) with
  | false =>
    have hno : ¬(((n + 1) % 4 = 0 ∧ (n + 1) % 100 ≠ 0) ∨ (n + 1) % 400 = 0) := by
      intro hp
      rw [hiff.mpr hp] at hl
      exact Bool.noConfusion hl
    rw [if_neg Bool.false_ne_true]
    split_ifs with q1 q2 q3 <;> push_cast <;> omega
  | true =>
    have hyes := hiff.mp hl
    rw [if_pos rfl]
    split_ifs with q1 q2 q3 <;> push_cast <;> omega

theorem nextDay_of_lt {y m dd : Nat} (h1 : dd < daysInMonth y m) :
    nextDay ⟨y, m, dd⟩ = ⟨y, m, dd + 1⟩ := by
  unfold nextDay
  exact if_pos h1

theorem nextDay_of_eom {y m dd : Nat} (h1 : ¬dd < daysInMonth y m) (h2 : m < 12) :
    nextDay ⟨y, m, dd⟩ = ⟨y, m + 1, 1⟩ := by
  unfold nextDay
  rw [if_neg h1, if_pos h2]

theorem nextDay_of_eoy {y m dd : Nat} (h1 : ¬dd < daysInMonth y m) (h2 : ¬m < 12) :
    nextDay ⟨y, m, dd⟩ = ⟨y + 1, 1, 1⟩ := by
  unfold nextDay
  rw [if_neg h1, if_neg h2]

theorem toOrdinal_nextDay (d : Date) (h : isValidDate d) :
    toOrdinal (nextDay d) = toOrdinal d + 1 := by
  obtain ⟨y, m, dd⟩ := d
  have hf : 1 ≤ y ∧ 1 ≤ m ∧ m ≤ 12 ∧ 1 ≤ dd ∧ dd ≤ daysInMonth y m := h
  obtain ⟨hy, hm1, hm2, hd1, hd2⟩ := hf
  by_cases h1 : dd < daysInMonth y m
  · rw [nextDay_of_lt h1]
    show daysBeforeYear y + (daysBeforeMonth y m : Int) + ((dd + 1 : Nat) : Int)
        = daysBeforeYear y + (daysBeforeMonth y m : Int) + (dd : Int) + 1
    push_cast
    ring
  · have hdd : dd = daysInMonth y m := by omega
    by_cases h2 : m < 12
    · rw [nextDay_of_eom h1 h2]
      show daysBeforeYear y + (daysBeforeMonth y (m + 1) : Int) + ((1 : Nat) : Int)
          = daysBeforeYear y + (daysBeforeMonth y m : Int) + (dd : Int) + 1
      rw [daysBeforeMonth_step y hm1 (by omega)]
      push_cast
      omega
    · have hm12 : m = 12 := by omega
      subst hm12
      rw [nextDay_of_eoy h1 h2]
      show daysBeforeYear (y + 1) + (daysBeforeMonth (y + 1) 1 : Int) + ((1 : Nat) : Int)
          = daysBeforeYear y + (daysBeforeMonth y 12 : Int) + (dd : Int) + 1
      have ht : daysBeforeMonth y 12 = 334 + (if isLeap y then 1 else 0) := by
        cases hl : isLeap y <;> simp [daysBeforeMonth, daysBeforeMonthTable, hl]
      have hv : daysInMonth y 12 = 31 := by
        simp [daysInMonth, daysInMonthTable]
      have hb1 : daysBeforeMonth (y + 1) 1 = 0 := by
        simp [daysBeforeMonth, daysBeforeMonthTable]
      rw [hv] at hdd
      rw [daysBeforeYear_succ y hy, ht, hb1]
      split_ifs <;> push_cast <;> omega

theorem isValidDate_nextDay (d : Date) (h : isValidDate d) :
    isValidDate (nextDay d) := by
  obtain ⟨y, m, dd⟩ := d
  have hf : 1 ≤ y ∧ 1 ≤ m ∧ m ≤ 12 ∧ 1 ≤ dd ∧ dd ≤ daysInMonth y m := h
  obtain ⟨hy, hm1, hm2, hd1, hd2⟩ := hf
  by_cases h1 : dd < daysInMonth y m
  · rw [nextDay_of_lt h1]
    show 1 ≤ y ∧ 1 ≤ m ∧ m ≤ 12 ∧ 1 ≤ dd + 1 ∧ dd + 1 ≤ daysInMonth y m
    exact ⟨hy, hm1, hm2, by omega, by omega⟩
  · by_cases h2 : m < 12
    · rw [nextDay_of_eom h1 h2]
      show 1 ≤ y ∧ 1 ≤ m + 1 ∧ m + 1 ≤ 12 ∧ 1 ≤ 1 ∧ 1 ≤ daysInMonth y (m + 1)
      exact ⟨hy, by omega, by omega, le_refl 1, one_le_daysInMonth y (by omega) (by omega)⟩
    · rw [nextDay_of_eoy h1 h2]
      show 1 ≤ y + 1 ∧ 1 ≤ 1 ∧ 1 ≤ 12 ∧ 1 ≤ 1 ∧ 1 ≤ daysInMonth (y + 1) 1
      exact ⟨by omega, le_refl 1, by omega, le_refl 1,
        one_le_daysInMonth (y + 1) (by omega) (by omega)⟩

theorem toOrdinal_addDays (k : Nat) (d : Date) (h : isValidDate d) :
    toOrdinal (addDays k d) = toOrdinal d + k := by
  induction k generalizing d with
  | zero => simp [addDays]
  | succ n ih =>
    show toOrdinal (addDays n (nextDay d)) = toOrdinal d + (n + 1 : Nat)
    rw [ih (nextDay d) (isValidDate_nextDay d h), toOrdinal_nextDay d h]
    push_cast
    omega

theorem weekday_lt_7 (d : Date) : weekday d < 7 := by
  unfold weekday
  omega

theorem weekday_addDays (k : Nat) (d : Date) (h : isValidDate d) :
    weekday (addDays k d) = (weekday d + k) % 7 := by
  unfold weekday
  rw [toOrdinal_addDays k d h]
  omega

theorem replaceYear_ok_valid {d : Date} {y : Nat} {e : Date}
    (h : replaceYear d y = Except.ok e) :
    isValidDate e ∧ e.year = y ∧ e.month = d.month ∧ e.day = d.day ∧ y ≤ 9999 := by
  unfold replaceYear at h
  split_ifs at h with q1 q2 q3
  injection h with h
  subst h
  refine ⟨?_, rfl, rfl, rfl, by omega⟩
  show 1 ≤ y ∧ 1 ≤ d.month ∧ d.month ≤ 12 ∧ 1 ≤ d.day ∧ d.day ≤ daysInMonth y d.month
  omega

theorem nextOccurrence_ok {t b : Date} {occ : Date} {delta : Int}
    (h : nextOccurrence t b = Except.ok (occ, delta)) :
    isValidDate occ ∧ delta = dateSub occ t := by
  unfold nextOccurrence at h
  split at h
  next e heq => exact absurd h (by simp)
  next b1 heq =>
    split at h
    · split at h
      next e2 heq2 => exact absurd h (by simp)
      next b2 heq2 =>
        simp only [Except.ok.injEq, Prod.mk.injEq] at h
        obtain ⟨ho, hd⟩ := h
        subst ho
        exact ⟨(replaceYear_ok_valid heq2).1, hd.symm⟩
    · simp only [Except.ok.injEq, Prod.mk.injEq] at h
      obtain ⟨ho, hd⟩ := h
      subst ho
      exact ⟨(replaceYear_ok_valid heq).1, hd.symm⟩

theorem specDeltaDays_eq_nextOccurrence (t b : Date) :
    specDeltaDays t b =
      match nextOccurrence t b with
      | Except.error _ => none
      | Except.ok p => some p.2 := by
  unfold specDeltaDays nextOccurrence
  cases replaceYear b t.year with
  | error e => rfl
  | ok b1 =>
    by_cases hneg : dateSub b1 t < 0
    · simp only [if_pos hneg]
      cases replaceYear b1 (t.year + 1) with
      | error e => rfl
      | ok b2 => rfl
    · simp only [if_neg hneg]

theorem processRecord_eq_ok {t : Date} {r : Record} {b occ : Date} {δ : Int}
    (hb : r.birthday = some b) (hocc : nextOccurrence t b = Except.ok (occ, δ)) :
    processRecord t r =
      if 0 ≤ δ ∧ δ ≤ 7 then
        Except.ok (some (weekday (if 5 ≤ weekday occ then addDays (7 - weekday occ) occ else occ),
          r.name))
      else Except.ok none := by
  obtain ⟨nm, ph, bd⟩ := r
  dsimp only at hb
  subst hb
  unfold processRecord
  dsimp only
  rw [hocc]

theorem processRecord_eq_error {t : Date} {r : Record} {b : Date} {e : String}
    (hb : r.birthday = some b) (hocc : nextOccurrence t b = Except.error e) :
    processRecord t r = Except.error e := by
  obtain ⟨nm, ph, bd⟩ := r
  dsimp only at hb
  subst hb
  unfold processRecord
  dsimp only
  rw [hocc]

/-- Claim C1: a record with a birthday is included in the upcoming-birthday
result exactly when the delta computed as the spec describes it (this year's
occurrence via year replacement, recomputed with next year when already
passed) lies in the inclusive window 0..7; in particular, for today
2024-06-10 a contact with birthday 01.01.2000 does not appear, its next
considered occurrence being 01.01.2025. -/
theorem upcoming_inclusion_iff_window (t : Date) (r : Record) (b : Date)
    (hb : r.birthday = some b) :
    ((∃ p, processRecord t r = Except.ok (some p)) ↔
      (∃ δ, specDeltaDays t b = some δ ∧ 0 ≤ δ ∧ δ ≤ 7))
    ∧ processRecord ⟨2024, 6, 10⟩ ⟨"Alice", [], some ⟨2000, 1, 1⟩⟩ = Except.ok none := by
  constructor
  · rw [specDeltaDays_eq_nextOccurrence]
    cases hno : nextOccurrence t b with
    | error e =>
      rw [processRecord_eq_error hb hno]
      simp
    | ok p =>
      obtain ⟨occ, δ⟩ := p
      rw [processRecord_eq_ok hb hno]
      by_cases hwin : 0 ≤ δ ∧ δ ≤ 7
      · rw [if_pos hwin]
        simp [hwin]
      · rw [if_neg hwin]
        simp [hwin]
  · rfl

/-- Witness for C1: the equivalence and the exclusion instantiated at
today = 2024-06-10 with birthday 01.01.2000. -/
theorem upcoming_inclusion_iff_window_instance :
    ((∃ p, processRecord ⟨2024, 6, 10⟩ ⟨"Alice", [], some ⟨2000, 1, 1⟩⟩ = Except.ok (some p)) ↔
      (∃ δ, specDeltaDays ⟨2024, 6, 10⟩ ⟨2000, 1, 1⟩ = some δ ∧ 0 ≤ δ ∧ δ ≤ 7))
    ∧ processRecord ⟨2024, 6, 10⟩ ⟨"Alice", [], some ⟨2000, 1, 1⟩⟩ = Except.ok none :=
  upcoming_inclusion_iff_window ⟨2024, 6, 10⟩ ⟨"Alice", [], some ⟨2000, 1, 1⟩⟩ ⟨2000, 1, 1⟩ rfl

/-- Claim C2: an occurrence surviving the window that falls on Saturday or
Sunday (weekday index 5 or 6, Monday = 0) is shifted forward by
`7 - weekday` days, landing exactly on the following Monday (weekday 0),
before grouping; in particular for today = 2024-06-10 a contact with
birthday 15.06.2024 (a Saturday) is listed under "Monday". -/
theorem weekend_shift_to_monday (t : Date) (r : Record) (b occ : Date) (δ : Int)
    (hb : r.birthday = some b) (hocc : nextOccurrence t b = Except.ok (occ, δ))
    (hwin : 0 ≤ δ ∧ δ ≤ 7) (hwd : 5 ≤ weekday occ) :
    (processRecord t r = Except.ok (some (weekday (addDays (7 - weekday occ) occ), r.name))
      ∧ weekday (addDays (7 - weekday occ) occ) = 0
      ∧ toOrdinal (addDays (7 - weekday occ) occ) = toOrdinal occ + ((7 - weekday occ : Nat) : Int))
    ∧ get_upcoming_birthdays [⟨"Bob", [], some ⟨2024, 6, 15⟩⟩] ⟨2024, 6, 10⟩
        = Except.ok "Monday: Bob" := by
  have hval := (nextOccurrence_ok hocc).1
  refine ⟨⟨?_, ?_, ?_⟩, ?_⟩
  · rw [processRecord_eq_ok hb hocc, if_pos hwin, if_pos hwd]
  · rw [weekday_addDays _ _ hval]
    have h7 := weekday_lt_7 occ
    omega
  · exact toOrdinal_addDays _ _ hval
  · rfl

/-- Witness for C2: instantiated at today = 2024-06-10 with the record
whose birthday 15.06.2024 falls on a Saturday. -/
theorem weekend_shift_to_monday_instance :
    (processRecord ⟨2024, 6, 10⟩ ⟨"Bob", [], some ⟨2024, 6, 15⟩⟩
        = Except.ok (some (weekday (addDays (7 - weekday ⟨2024, 6, 15⟩) ⟨2024, 6, 15⟩), "Bob"))
      ∧ weekday (addDays (7 - weekday ⟨2024, 6, 15⟩) ⟨2024, 6, 15⟩) = 0
      ∧ toOrdinal (addDays (7 - weekday ⟨2024, 6, 15⟩) ⟨2024, 6, 15⟩)
          = toOrdinal ⟨2024, 6, 15⟩ + ((7 - weekday ⟨2024, 6, 15⟩ : Nat) : Int))
    ∧ get_upcoming_birthdays [⟨"Bob", [], some ⟨2024, 6, 15⟩⟩] ⟨2024, 6, 10⟩
        = Except.ok "Monday: Bob" :=
  weekend_shift_to_monday ⟨2024, 6, 10⟩ ⟨"Bob", [], some ⟨2024, 6, 15⟩⟩ ⟨2024, 6, 15⟩
    ⟨2024, 6, 15⟩ 5 rfl rfl (by decide) (by decide)

theorem filterMap_groupLine (pairs : List (Nat × String)) :
    ∀ l : List Nat, l.filterMap (groupLine pairs)
      = (l.filter (fun i => !(namesForDay pairs i).isEmpty)).map
          (fun i => dayName i ++ ": " ++ String.intercalate ", " (sortNames (namesForDay pairs i)))
  | [] => rfl
  | i :: rest => by
    rw [List.filterMap_cons, List.filter_cons]
    by_cases hne : namesForDay pairs i = []
    · simp [groupLine, hne, filterMap_groupLine pairs rest]
    · have hie : (namesForDay pairs i).isEmpty = false := by
        simpa [List.isEmpty_iff] using hne
      simp [groupLine, hne, hie, filterMap_groupLine pairs rest]

theorem groupLines_eq_map (pairs : List (Nat × String)) :
    groupLines pairs = (emittedDays pairs).map
      (fun i => dayName i ++ ": " ++ String.intercalate ", " (sortNames (namesForDay pairs i))) :=
  filterMap_groupLine pairs (List.range 7)

/-- Claim C3: the result lists surviving names grouped by (possibly shifted)
weekday: the emitted day groups are exactly the non-empty ones among the
weekday indices 0..6, in increasing (Monday to Sunday) order, each line
carrying its group's names sorted lexicographically; and when no record
qualifies the fixed "No upcoming birthdays next week." indicator is returned
instead of an empty sequence. -/
theorem upcoming_grouping_spec (book : List Record) (t : Date) (pairs : List (Nat × String))
    (h : collectPairs t book = Except.ok pairs) :
    (pairs = [] → get_upcoming_birthdays book t = Except.ok "No upcoming birthdays next week.")
    ∧ (pairs ≠ [] → get_upcoming_birthdays book t =
        Except.ok (String.intercalate "\n" ((emittedDays pairs).map
          (fun i => dayName i ++ ": " ++ String.intercalate ", " (sortNames (namesForDay pairs i))))))
    ∧ List.Sorted (· < ·) (emittedDays pairs)
    ∧ (∀ i, i ∈ emittedDays pairs ↔ i < 7 ∧ namesForDay pairs i ≠ [])
    ∧ (∀ i, List.Sorted (· ≤ ·) (sortNames (namesForDay pairs i))
          ∧ (sortNames (namesForDay pairs i)).Perm (namesForDay pairs i)) := by
  refine ⟨?_, ?_, ?_, ?_, ?_⟩
  · intro hp
    subst hp
    unfold get_upcoming_birthdays
    rw [h]
  · intro hp
    unfold get_upcoming_birthdays
    rw [h, ← groupLines_eq_map]
    cases pairs with
    | nil => exact absurd rfl hp
    | cons a l => rfl
  · exact List.Pairwise.sublist (List.filter_sublist _) (List.pairwise_lt_range 7)
  · intro i
    simp [emittedDays, List.mem_filter, List.mem_range, List.isEmpty_iff, and_comm]
  · intro i
    exact ⟨List.sorted_insertionSort (· ≤ ·) (namesForDay pairs i),
      List.perm_insertionSort (· ≤ ·) (namesForDay pairs i)⟩

/-- Witness for C3: instantiated at today = 2024-06-10 with three records
contributing the pairs [(2, Carl), (2, Ann), (0, Bob)]. -/
theorem upcoming_grouping_spec_instance :
    (([((2 : Nat), "Carl"), (2, "Ann"), (0, "Bob")] : List (Nat × String)) = [] →
      get_upcoming_birthdays
        [⟨"Carl", [], some ⟨2024, 6, 12⟩⟩, ⟨"Ann", [], some ⟨2024, 6, 12⟩⟩,
         ⟨"Bob", [], some ⟨2024, 6, 15⟩⟩] ⟨2024, 6, 10⟩
        = Except.ok "No upcoming birthdays next week.")
    ∧ (([((2 : Nat), "Carl"), (2, "Ann"), (0, "Bob")] : List (Nat × String)) ≠ [] →
      get_upcoming_birthdays
        [⟨"Carl", [], some ⟨2024, 6, 12⟩⟩, ⟨"Ann", [], some ⟨2024, 6, 12⟩⟩,
         ⟨"Bob", [], some ⟨2024, 6, 15⟩⟩] ⟨2024, 6, 10⟩ =
        Except.ok (String.intercalate "\n"
          ((emittedDays [(2, "Carl"), (2, "Ann"), (0, "Bob")]).map
            (fun i => dayName i ++ ": " ++ String.intercalate ", "
              (sortNames (namesForDay [(2, "Carl"), (2, "Ann"), (0, "Bob")] i))))))
    ∧ List.Sorted (· < ·) (emittedDays [(2, "Carl"), (2, "Ann"), (0, "Bob")])
    ∧ (∀ i, i ∈ emittedDays [(2, "Carl"), (2, "Ann"), (0, "Bob")] ↔
        i < 7 ∧ namesForDay [(2, "Carl"), (2, "Ann"), (0, "Bob")] i ≠ [])
    ∧ (∀ i, List.Sorted (· ≤ ·) (sortNames (namesForDay [(2, "Carl"), (2, "Ann"), (0, "Bob")] i))
          ∧ (sortNames (namesForDay [(2, "Carl"), (2, "Ann"), (0, "Bob")] i)).Perm
              (namesForDay [(2, "Carl"), (2, "Ann"), (0, "Bob")] i)) :=
  upcoming_grouping_spec
    [⟨"Carl", [], some ⟨2024, 6, 12⟩⟩, ⟨"Ann", [], some ⟨2024, 6, 12⟩⟩,
     ⟨"Bob", [], some ⟨2024, 6, 15⟩⟩] ⟨2024, 6, 10⟩
    [(2, "Carl"), (2, "Ann"), (0, "Bob")] rfl

theorem any_beq_iff_mem (l : List String) (p : String) :
    l.any (fun q => q == p) = true ↔ p ∈ l := by
  simp [List.any_eq_true]

theorem firstIdx_eq_none_iff (p : String) : ∀ l : List String,
    firstIdx p l = none ↔ ∀ q ∈ l, q ≠ p
  | [] => by simp [firstIdx]
  | q :: rest => by
    unfold firstIdx
    by_cases hq : q = p
    · subst hq
      simp
    · simp [hq, Option.map_eq_none', firstIdx_eq_none_iff p rest]

theorem firstIdx_get (p : String) : ∀ (l : List String) (i : Nat),
    firstIdx p l = some i → l[i]? = some p
  | [], i, h => by simp [firstIdx] at h
  | q :: rest, i, h => by
    unfold firstIdx at h
    by_cases hq : q = p
    · rw [if_pos (by simp [hq])] at h
      injection h with h
      subst h
      simp [hq]
    · rw [if_neg (by simp [hq])] at h
      cases hfr : firstIdx p rest with
      | none => rw [hfr] at h; simp at h
      | some j =>
        rw [hfr] at h
        simp only [Option.map_some', Option.some.injEq] at h
        subst h
        rw [List.getElem?_cons_succ]
        exact firstIdx_get p rest j hfr

theorem firstIdx_lt_length {p : String} {l : List String} {i : Nat}
    (h : firstIdx p l = some i) : i < l.length := by
  obtain ⟨hlt, _⟩ := List.getElem?_eq_some_iff.mp (firstIdx_get p l i h)
  exact hlt

theorem set_get_self : ∀ (l : List String) (i : Nat) (a : String),
    l[i]? = some a → l.set i a = l
  | [], i, a, h => by simp at h
  | x :: xs, 0, a, h => by
    rw [List.getElem?_cons_zero, Option.some.injEq] at h
    subst h
    rfl
  | x :: xs, i + 1, a, h => by
    show x :: xs.set i a = x :: xs
    rw [set_get_self xs i a (by simpa using h)]

theorem nodup_set_of_not_mem : ∀ (l : List String) (i : Nat) (n : String),
    l.Nodup → n ∉ l → (l.set i n).Nodup
  | [], _, _, _, _ => by simp
  | x :: xs, 0, n, hnd, hnm => by
    show (n :: xs).Nodup
    rw [List.nodup_cons] at hnd ⊢
    exact ⟨fun hmem => hnm (List.mem_cons_of_mem x hmem), hnd.2⟩
  | x :: xs, i + 1, n, hnd, hnm => by
    show (x :: xs.set i n).Nodup
    rw [List.nodup_cons] at hnd ⊢
    refine ⟨fun hmem => ?_, nodup_set_of_not_mem xs i n hnd.2 (fun h => hnm (List.mem_cons_of_mem x h))⟩
    rcases List.mem_or_eq_of_mem_set hmem with h | h
    · exact hnd.1 h
    · exact hnm (h ▸ List.mem_cons_self x xs)

/-- Claim C4 counterexample: `edit_phone` does not re-check uniqueness, so
editing one entry to the digits of another produces a duplicated phone list;
uniqueness is not an invariant of every operation. -/
theorem edit_phone_duplicate_cex :
    (edit_phone ⟨"A", ["1111111111", "2222222222"], none⟩ "1111111111" "2222222222").1.phones
      = ["2222222222", "2222222222"]
    ∧ ¬ (edit_phone ⟨"A", ["1111111111", "2222222222"], none⟩ "1111111111"
          "2222222222").1.phones.Nodup := by
  constructor
  · rfl
  · decide

/-- Claim C4 as amended: phone uniqueness is preserved by `add_phone` and
`remove_phone` unconditionally, and by `edit_phone` provided the new digit
string is not already held elsewhere in the list (it equals the edited entry
or occurs nowhere); editing an entry to another entry's digits can break it
(see the counterexample). -/
theorem phones_nodup_preserved (r : Record) (p o n : String) (h : r.phones.Nodup) :
    (add_phone r p).1.phones.Nodup
    ∧ (remove_phone r p).1.phones.Nodup
    ∧ ((n ∉ r.phones ∨ n = o) → (edit_phone r o n).1.phones.Nodup) := by
  refine ⟨?_, ?_, ?_⟩
  · unfold add_phone
    split_ifs with h1 h2
    · exact h
    · show (r.phones ++ [p]).Nodup
      rw [List.nodup_append]
      refine ⟨h, List.nodup_singleton p, ?_⟩
      intro a ha hpa
      rw [List.mem_singleton] at hpa
      subst hpa
      exact h1 ((any_beq_iff_mem r.phones a).mpr ha)
    · exact h
  · unfold remove_phone
    cases hfi : firstIdx p r.phones with
    | none => exact h
    | some i => exact List.Nodup.sublist (List.eraseIdx_sublist _ _) h
  · intro hn
    unfold edit_phone
    cases hfi : firstIdx o r.phones with
    | none => exact h
    | some i =>
      split_ifs with hv
      · show (r.phones.set i n).Nodup
        rcases hn with hn | hn
        · exact nodup_set_of_not_mem r.phones i n h hn
        · subst hn
          rw [set_get_self r.phones i n (firstIdx_get n r.phones i hfi)]
          exact h
      · exact h

/-- Witness for C4 (amended): preservation instantiated on a concrete
record with two phones. -/
theorem phones_nodup_preserved_instance :
    (add_phone ⟨"A", ["1111111111", "2222222222"], none⟩ "3333333333").1.phones.Nodup
    ∧ (remove_phone ⟨"A", ["1111111111", "2222222222"], none⟩ "3333333333").1.phones.Nodup
    ∧ (("3333333333" ∉ (⟨"A", ["1111111111", "2222222222"], none⟩ : Record).phones
        ∨ "3333333333" = "1111111111") →
        (edit_phone ⟨"A", ["1111111111", "2222222222"], none⟩ "1111111111"
          "3333333333").1.phones.Nodup) :=
  phones_nodup_preserved ⟨"A", ["1111111111", "2222222222"], none⟩ "3333333333" "1111111111"
    "3333333333" (by decide)

/-- Claim C5: adding a digit string already present fails with the
duplicate-phone error and leaves the record (hence its phone count and list)
unchanged; when absent, `add_phone` validates and appends at the end,
preserving insertion order. -/
theorem add_phone_spec (r : Record) (p : String) :
    (p ∈ r.phones → add_phone r p = (r, some (Err.duplicatePhone p)))
    ∧ (p ∉ r.phones → isValidPhone p = true →
        add_phone r p = ({ r with phones := r.phones ++ [p] }, none)) := by
  constructor
  · intro hmem
    unfold add_phone
    rw [if_pos ((any_beq_iff_mem r.phones p).mpr hmem)]
  · intro hmem hv
    unfold add_phone
    rw [if_neg (fun hc => hmem ((any_beq_iff_mem r.phones p).mp hc)), if_pos hv]

/-- Witness for C5: add an existing and then a fresh phone on a concrete
record. -/
theorem add_phone_spec_instance :
    ("1111111111" ∈ (⟨"A", ["1111111111"], none⟩ : Record).phones →
      add_phone ⟨"A", ["1111111111"], none⟩ "1111111111"
        = (⟨"A", ["1111111111"], none⟩, some (Err.duplicatePhone "1111111111")))
    ∧ ("1111111111" ∉ (⟨"A", ["1111111111"], none⟩ : Record).phones →
        isValidPhone "1111111111" = true →
        add_phone ⟨"A", ["1111111111"], none⟩ "1111111111"
          = (⟨"A", ["1111111111", "1111111111"], none⟩, none)) :=
  add_phone_spec ⟨"A", ["1111111111"], none⟩ "1111111111"

/-- Claim C6: `edit_phone` with an absent old number fails with the
phone-not-found error and leaves the record unchanged; with the old number
present at first index `i`, it validates the new number and replaces in
place: same length, entry `i` now the new value, every other position
untouched, name and birthday untouched. -/
theorem edit_phone_spec (r : Record) (o n : String) :
    ((∀ q ∈ r.phones, q ≠ o) → edit_phone r o n = (r, some (Err.phoneNotFound o)))
    ∧ (∀ i, firstIdx o r.phones = some i → isValidPhone n = true →
        edit_phone r o n = ({ r with phones := r.phones.set i n }, none)
        ∧ (r.phones.set i n).length = r.phones.length
        ∧ (r.phones.set i n)[i]? = some n
        ∧ (∀ j, j ≠ i → (r.phones.set i n)[j]? = r.phones[j]?)) := by
  constructor
  · intro habs
    unfold edit_phone
    rw [(firstIdx_eq_none_iff o r.phones).mpr habs]
  · intro i hi hv
    refine ⟨?_, List.length_set r.phones i n, ?_, ?_⟩
    · unfold edit_phone
      rw [hi]
      show (if isValidPhone n = true then _ else _) = _
      rw [if_pos hv]
    · exact List.getElem?_set_self (firstIdx_lt_length hi)
    · intro j hj
      exact List.getElem?_set_ne (fun h => hj h.symm)

/-- Witness for C6: editing an absent number and a present one on a
concrete record. -/
theorem edit_phone_spec_instance :
    ((∀ q ∈ (⟨"A", ["1111111111"], none⟩ : Record).phones, q ≠ "2222222222") →
      edit_phone ⟨"A", ["1111111111"], none⟩ "2222222222" "3333333333"
        = (⟨"A", ["1111111111"], none⟩, some (Err.phoneNotFound "2222222222")))
    ∧ (∀ i, firstIdx "2222222222" (⟨"A", ["1111111111"], none⟩ : Record).phones = some i →
        isValidPhone "3333333333" = true →
        edit_phone ⟨"A", ["1111111111"], none⟩ "2222222222" "3333333333"
          = (⟨"A", (["1111111111"] : List String).set i "3333333333", none⟩, none)
        ∧ ((["1111111111"] : List String).set i "3333333333").length
            = (["1111111111"] : List String).length
        ∧ ((["1111111111"] : List String).set i "3333333333")[i]? = some "3333333333"
        ∧ (∀ j, j ≠ i → ((["1111111111"] : List String).set i "3333333333")[j]?
            = (["1111111111"] : List String)[j]?)) :=
  edit_phone_spec ⟨"A", ["1111111111"], none⟩ "2222222222" "3333333333"

theorem isDigitChar_iff (c : Char) : isDigitChar c = true ↔ ('0' ≤ c ∧ c ≤ '9') := by
  unfold isDigitChar
  rw [Bool.and_eq_true, decide_eq_true_iff, decide_eq_true_iff, Char.le_def, Char.le_def,
    UInt32.le_def]
  constructor
  · intro ⟨a, b⟩
    exact ⟨a, b⟩
  · intro ⟨a, b⟩
    exact ⟨a, b⟩

/-- Claim C7: `Phone` construction succeeds, holding exactly the given
string, precisely when the string is ten characters all in `0`..`9`; any
other string fails with the invalid-phone-format error. -/
theorem phone_create_spec (s : String) :
    (phoneMake s = Except.ok s ↔ (s.length = 10 ∧ ∀ c ∈ s.data, ('0' ≤ c ∧ c ≤ '9')))
    ∧ (¬(s.length = 10 ∧ ∀ c ∈ s.data, ('0' ≤ c ∧ c ≤ '9')) →
        phoneMake s = Except.error Err.invalidPhoneFormat) := by
  have hval : isValidPhone s = true ↔ (s.length = 10 ∧ ∀ c ∈ s.data, ('0' ≤ c ∧ c ≤ '9')) := by
    unfold isValidPhone
    rw [Bool.and_eq_true, beq_iff_eq, List.all_eq_true]
    constructor
    · intro ⟨h1, h2⟩
      exact ⟨h1, fun c hc => (isDigitChar_iff c).mp (h2 c hc)⟩
    · intro ⟨h1, h2⟩
      exact ⟨h1, fun c hc => (isDigitChar_iff c).mpr (h2 c hc)⟩
  constructor
  · constructor
    · intro hok
      apply hval.mp
      by_contra hbad
      have hb : isValidPhone s = false := by
        cases hq : isValidPhone s
        · rfl
        · exact absurd (hval.mp hq) (fun hgood => hbad (hval.mpr (hval.mp hq)) )
      unfold phoneMake at hok
      rw [hb] at hok
      exact absurd hok (by simp)
    · intro hgood
      unfold phoneMake
      rw [if_pos (hval.mpr hgood)]
  · intro hbad
    unfold phoneMake
    rw [if_neg (fun hc => hbad (hval.mp hc))]

/-- Witness for C7: the characterisation instantiated at the string
"0123456789". -/
theorem phone_create_spec_instance :
    (phoneMake "0123456789" = Except.ok "0123456789" ↔
      ("0123456789".length = 10 ∧ ∀ c ∈ "0123456789".data, ('0' ≤ c ∧ c ≤ '9')))
    ∧ (¬("0123456789".length = 10 ∧ ∀ c ∈ "0123456789".data, ('0' ≤ c ∧ c ≤ '9')) →
        phoneMake "0123456789" = Except.error Err.invalidPhoneFormat) :=
  phone_create_spec "0123456789"

theorem isDigitChar_ne_dot {c : Char} (h : isDigitChar c = true) : (c == '.') = false := by
  rw [beq_eq_false_iff_ne]
  intro hc
  subst hc
  exact absurd h (by decide)

theorem splitOnDot_shape (d1 d2 m1 m2 y1 y2 y3 y4 : Char)
    (h1 : (d1 == '.') = false) (h2 : (d2 == '.') = false)
    (h3 : (m1 == '.') = false) (h4 : (m2 == '.') = false)
    (h5 : (y1 == '.') = false) (h6 : (y2 == '.') = false)
    (h7 : (y3 == '.') = false) (h8 : (y4 == '.') = false) :
    splitOnDot [d1, d2, '.', m1, m2, '.', y1, y2, y3, y4]
      = [[d1, d2], [m1, m2], [y1, y2, y3, y4]] := by
  simp [splitOnDot, h1, h2, h3, h4, h5, h6, h7, h8]

theorem pad2_fieldToNat {c1 c2 : Char} (h1 : isDigitChar c1 = true) (h2 : isDigitChar c2 = true) :
    pad2 (fieldToNat [c1, c2]) = [c1, c2] := by
  have b1 : 48 ≤ c1.toNat ∧ c1.toNat ≤ 57 := by simpa [isDigitChar] using h1
  have b2 : 48 ≤ c2.toNat ∧ c2.toNat ≤ 57 := by simpa [isDigitChar] using h2
  show [digitChar (fieldToNat [c1, c2] / 10), digitChar (fieldToNat [c1, c2] % 10)] = [c1, c2]
  have hf : fieldToNat [c1, c2] = 10 * (c1.toNat - 48) + (c2.toNat - 48) := by
    show 10 * (10 * 0 + (c1.toNat - 48)) + (c2.toNat - 48) = _
    omega
  rw [hf]
  have e1 : (10 * (c1.toNat - 48) + (c2.toNat - 48)) / 10 = c1.toNat - 48 := by omega
  have e2 : (10 * (c1.toNat - 48) + (c2.toNat - 48)) % 10 = c2.toNat - 48 := by omega
  rw [e1, e2]
  unfold digitChar
  have g1 : 48 + (c1.toNat - 48) = c1.toNat := by omega
  have g2 : 48 + (c2.toNat - 48) = c2.toNat := by omega
  rw [g1, g2, Char.ofNat_toNat, Char.ofNat_toNat]

theorem pad4_fieldToNat {c1 c2 c3 c4 : Char} (h1 : isDigitChar c1 = true)
    (h2 : isDigitChar c2 = true) (h3 : isDigitChar c3 = true) (h4 : isDigitChar c4 = true) :
    pad4 (fieldToNat [c1, c2, c3, c4]) = [c1, c2, c3, c4] := by
  have b1 : 48 ≤ c1.toNat ∧ c1.toNat ≤ 57 := by simpa [isDigitChar] using h1
  have b2 : 48 ≤ c2.toNat ∧ c2.toNat ≤ 57 := by simpa [isDigitChar] using h2
  have b3 : 48 ≤ c3.toNat ∧ c3.toNat ≤ 57 := by simpa [isDigitChar] using h3
  have b4 : 48 ≤ c4.toNat ∧ c4.toNat ≤ 57 := by simpa [isDigitChar] using h4
  show [digitChar (fieldToNat [c1, c2, c3, c4] / 1000),
        digitChar (fieldToNat [c1, c2, c3, c4] / 100 % 10),
        digitChar (fieldToNat [c1, c2, c3, c4] / 10 % 10),
        digitChar (fieldToNat [c1, c2, c3, c4] % 10)] = [c1, c2, c3, c4]
  have hf : fieldToNat [c1, c2, c3, c4]
      = 1000 * (c1.toNat - 48) + 100 * (c2.toNat - 48) + 10 * (c3.toNat - 48) + (c4.toNat - 48) := by
    show 10 * (10 * (10 * (10 * 0 + (c1.toNat - 48)) + (c2.toNat - 48)) + (c3.toNat - 48))
        + (c4.toNat - 48) = _
    omega
  rw [hf]
  have e1 : (1000 * (c1.toNat - 48) + 100 * (c2.toNat - 48) + 10 * (c3.toNat - 48)
      + (c4.toNat - 48)) / 1000 = c1.toNat - 48 := by omega
  have e2 : (1000 * (c1.toNat - 48) + 100 * (c2.toNat - 48) + 10 * (c3.toNat - 48)
      + (c4.toNat - 48)) / 100 % 10 = c2.toNat - 48 := by omega
  have e3 : (1000 * (c1.toNat - 48) + 100 * (c2.toNat - 48) + 10 * (c3.toNat - 48)
      + (c4.toNat - 48)) / 10 % 10 = c3.toNat - 48 := by omega
  have e4 : (1000 * (c1.toNat - 48) + 100 * (c2.toNat - 48) + 10 * (c3.toNat - 48)
      + (c4.toNat - 48)) % 10 = c4.toNat - 48 := by omega
  rw [e1, e2, e3, e4]
  unfold digitChar
  have g1 : 48 + (c1.toNat - 48) = c1.toNat := by omega
  have g2 : 48 + (c2.toNat - 48) = c2.toNat := by omega
  have g3 : 48 + (c3.toNat - 48) = c3.toNat := by omega
  have g4 : 48 + (c4.toNat - 48) = c4.toNat := by omega
  rw [g1, g2, g3, g4, Char.ofNat_toNat, Char.ofNat_toNat, Char.ofNat_toNat, Char.ofNat_toNat]

/-- Claim C8: for every strict `DD.MM.YYYY` string that parses as a real
calendar date, formatting the parsed `Birthday` value renders back exactly
the original string. -/
theorem birthday_roundtrip (s : String) (d : Date)
    (hshape : isStrictDDMMYYYY s = true) (hparse : parseBirthday s = some d) :
    formatDate d = s := by
  unfold isStrictDDMMYYYY at hshape
  split at hshape
  case h_2 => exact absurd hshape (by simp)
  case h_1 d1 d2 s1 m1 m2 s2 y1 y2 y3 y4 heq =>
    rw [Bool.and_eq_true, Bool.and_eq_true] at hshape
    obtain ⟨⟨hs1, hs2⟩, hdig⟩ := hshape
    rw [beq_iff_eq] at hs1 hs2
    subst hs1
    subst hs2
    simp only [List.all_cons, List.all_nil, Bool.and_eq_true, Bool.and_true] at hdig
    obtain ⟨g1, g2, g3, g4, g5, g6, g7, g8⟩ := hdig
    unfold parseBirthday at hparse
    rw [heq, splitOnDot_shape d1 d2 m1 m2 y1 y2 y3 y4 (isDigitChar_ne_dot g1)
      (isDigitChar_ne_dot g2) (isDigitChar_ne_dot g3) (isDigitChar_ne_dot g4)
      (isDigitChar_ne_dot g5) (isDigitChar_ne_dot g6) (isDigitChar_ne_dot g7)
      (isDigitChar_ne_dot g8)] at hparse
    dsimp only at hparse
    split_ifs at hparse with hfields hdate
    rw [Option.some.injEq] at hparse
    subst hparse
    unfold formatDate
    have hdata : s = String.mk s.data := rfl
    rw [hdata, heq]
    rw [pad2_fieldToNat g1 g2, pad2_fieldToNat g3 g4, pad4_fieldToNat g5 g6 g7 g8]
    rfl

/-- Witness for C8: round-trip at the string "15.06.2024". -/
theorem birthday_roundtrip_instance :
    formatDate ⟨2024, 6, 15⟩ = "15.06.2024" :=
  birthday_roundtrip "15.06.2024" ⟨2024, 6, 15⟩ (by decide) (by decide)

/-- Claim C9 counterexample: a one-digit day field is NOT rejected —
`strptime`'s `%d` regex accepts a single digit (leading zeros optional), so
"1.01.2000" parses successfully to January 1st, 2000. -/
theorem one_digit_day_accepted_cex :
    parseBirthday "1.01.2000" = some ⟨2000, 1, 1⟩
    ∧ add_birthday (recordMake "A") "1.01.2000" = (⟨"A", [], some ⟨2000, 1, 1⟩⟩, none) := by
  constructor <;> rfl

theorem foldl_digits_lt : ∀ (cs : List Char) (a : Nat), cs.all isDigitChar = true →
    cs.foldl (fun x c => 10 * x + (c.toNat - 48)) a < (a + 1) * 10 ^ cs.length
  | [], a, _ => by simp
  | c :: cs, a, h => by
    rw [List.all_cons, Bool.and_eq_true] at h
    have hd : c.toNat - 48 ≤ 9 := by
      have hb : 48 ≤ c.toNat ∧ c.toNat ≤ 57 := by simpa [isDigitChar] using h.1
      omega
    have ih := foldl_digits_lt cs (10 * a + (c.toNat - 48)) h.2
    calc List.foldl (fun x c => 10 * x + (c.toNat - 48)) (10 * a + (c.toNat - 48)) cs
        < (10 * a + (c.toNat - 48) + 1) * 10 ^ cs.length := ih
      _ ≤ (10 * (a + 1)) * 10 ^ cs.length := Nat.mul_le_mul_right _ (by omega)
      _ = (a + 1) * 10 ^ (c :: cs).length := by
          rw [List.length_cons, pow_succ]
          ring

theorem fieldToNat_lt {cs : List Char} (h : cs.all isDigitChar = true) :
    fieldToNat cs < 10 ^ cs.length := by
  have := foldl_digits_lt cs 0 h
  simpa [fieldToNat] using this

/-- Claim C9 as amended: `Birthday` creation parses `DD.MM.YYYY` with
`strptime`'s documented leniency — leading zeros in the day and month fields
are optional, so one-digit day or month fields are accepted; it fails with
the invalid-date-format error on wrong separators, non-numeric fields,
out-of-range day or month, a year field not exactly four digits, or a field
combination that is not a real calendar date, and every successfully parsed
value is a real calendar date. -/
theorem birthday_parse_amended :
    (∀ s dd, parseBirthday s = some dd → isValidDate dd ∧ dd.year ≤ 9999)
    ∧ (∀ r s, parseBirthday s = none → add_birthday r s = (r, some Err.invalidDateFormat))
    ∧ parseBirthday "01-01-2000" = none
    ∧ parseBirthday "aa.01.2000" = none
    ∧ parseBirthday "32.01.2020" = none
    ∧ parseBirthday "30.02.2020" = none
    ∧ parseBirthday "01.01.20000" = none
    ∧ parseBirthday "01.01.0000" = none
    ∧ parseBirthday "1.1.2000" = some ⟨2000, 1, 1⟩ := by
  refine ⟨?_, ?_, rfl, rfl, rfl, rfl, rfl, rfl, rfl⟩
  · intro s dd h
    unfold parseBirthday at h
    split at h
    case h_2 => exact absurd h (by simp)
    case h_1 df mf yf heq =>
      dsimp only at h
      split_ifs at h with hfields hdate
      rw [Option.some.injEq] at h
      subst h
      rw [Bool.and_eq_true, Bool.and_eq_true] at hfields
      obtain ⟨⟨hday, hmonth⟩, hyear⟩ := hfields
      unfold dayFieldOk at hday
      unfold monthFieldOk at hmonth
      unfold yearFieldOk at hyear
      rw [Bool.and_eq_true, Bool.and_eq_true, Bool.and_eq_true] at hday hmonth
      rw [Bool.and_eq_true] at hyear
      have hylen : yf.length = 4 := by
        have := hyear.2
        simpa using this
      have hybound : fieldToNat yf < 10000 := by
        have := fieldToNat_lt hyear.1
        rw [hylen] at this
        norm_num at this
        exact this
      have hd1 : 1 ≤ fieldToNat df := by
        have := hday.1.2
        simpa using this
      have hm1 : 1 ≤ fieldToNat mf := by
        have := hmonth.1.2
        simpa using this
      have hm12 : fieldToNat mf ≤ 12 := by
        have := hmonth.2
        simpa using this
      refine ⟨⟨hdate.1, hm1, hm12, hd1, hdate.2⟩, ?_⟩
      show fieldToNat yf ≤ 9999
      omega
  · intro r s h
    unfold add_birthday
    rw [h]

/-- Witness for C9 (amended): the validity guarantee and the error
propagation instantiated on concrete inputs. -/
theorem birthday_parse_amended_instance :
    (parseBirthday "29.02.2020" = some ⟨2020, 2, 29⟩
      ∧ isValidDate (⟨2020, 2, 29⟩ : Date) ∧ (⟨2020, 2, 29⟩ : Date).year ≤ 9999)
    ∧ add_birthday (recordMake "A") "31.02.2020" = (recordMake "A", some Err.invalidDateFormat) :=
  ⟨⟨rfl, (birthday_parse_amended.1 "29.02.2020" ⟨2020, 2, 29⟩ rfl)⟩,
    birthday_parse_amended.2.1 (recordMake "A") "31.02.2020" rfl⟩

/-- Claim C10: a book can hold a record whose birthday is February 29 (set
from "29.02.2020", a real date), and for a `today` in a non-leap year the
year-replacement step of `get_upcoming_birthdays` raises (`date.replace`
rejects Feb 29 in 2023), so the operation returns no result for that book. -/
theorem feb29_nonleap_error :
    add_birthday (recordMake "Leap") "29.02.2020" = (⟨"Leap", [], some ⟨2020, 2, 29⟩⟩, none)
    ∧ get_upcoming_birthdays [⟨"Leap", [], some ⟨2020, 2, 29⟩⟩] ⟨2023, 6, 10⟩
        = Except.error "day is out of range for month" := by
  constructor <;> rfl
